import Mathlib

/-!
Shallow embedding of the `assert_fs` fixture layer (`src/fixture/tools.rs`)
and assertion layer (`src/assert.rs`).

Paths are lists of components below an implicit root; the filesystem is an
association list from paths to entries.  File contents are byte lists
(`List Nat`); decoded text values (Rust `str`) are lists of unicode scalar
values.  Stateful operations take the filesystem and return the (possibly
partially updated) filesystem together with an optional error, mirroring
the fact that on-disk changes made before a failure are not rolled back.
-/

/-- A filesystem path: a list of components below an implicit root. -/
abbrev FPath := List String

/-- A decoded text value: a list of unicode scalar values (Rust `str`). -/
abbrev Str := List Nat

/-- A filesystem entry, as seen after symlink resolution: a regular file with
byte content, a directory, or a node that is neither (a special file). -/
inductive Entry where
  | file (content : List Nat)
  | dir
  | other
deriving DecidableEq, Repr

/-- The filesystem: an association list from paths to entries. -/
abbrev FS := List (FPath × Entry)

/-- Association-list lookup over the filesystem. -/
def lookupFS : FS → FPath → Option Entry
  | [], _ => none
  | (q, e) :: rest, p => if q = p then some e else lookupFS rest p

/-- The entry at `p`; the root `[]` always exists and is a directory. -/
def FS.entryAt (fs : FS) (p : FPath) : Option Entry :=
  if p = [] then some Entry.dir else lookupFS fs p

/-- Insert or replace the entry at `p`. -/
def insertFS : FS → FPath → Entry → FS
  | [], p, e => [(p, e)]
  | (q, d) :: rest, p, e =>
    if q = p then (p, e) :: rest else (q, d) :: insertFS rest p e

/-- An ordinary low-level I/O failure (permission denied, not found, ...).
The fixture layer wraps it with the kind of the failing operation. -/
inductive IoError where
  | ioErr
deriving DecidableEq, Repr

/-- The nonempty prefixes of `p`, shortest first: the chain of directories
that `create_dir_all p` has to establish. -/
def chainOf (p : FPath) : List FPath :=
  (List.range p.length).map (fun i => p.take (i + 1))

/-- Create every missing directory in the list `l` of paths, in order;
stop (keeping the directories created so far) at the first path that
already exists as a non-directory.  Helper for `FS.createDirAll`. -/
def mkDirs : FS → List FPath → FS × Option IoError
  | fs, [] => (fs, none)
  | fs, q :: rest =>
    match fs.entryAt q with
    | none => mkDirs (insertFS fs q Entry.dir) rest
    | some Entry.dir => mkDirs fs rest
    | some _ => (fs, some IoError.ioErr)

/-- Model of `std::fs::create_dir_all`: create every missing directory along the
chain of prefixes of `p`; idempotent on directories that already exist;
fails if some prefix exists as a non-directory, keeping the directories
created before the failure. -/
def FS.createDirAll (fs : FS) (p : FPath) : FS × Option IoError :=
  mkDirs fs (chainOf p)

/-- Model of `std::fs::File::create`: create (or truncate to empty) the regular file
at `p`.  Fails if `p` is the root, if the parent is not an existing
directory, or if `p` exists as a non-file. -/
def FS.fileCreate (fs : FS) (p : FPath) : FS × Option IoError :=
  if p = [] then (fs, some IoError.ioErr)
  else
    match fs.entryAt p.dropLast with
    | some Entry.dir =>
      match fs.entryAt p with
      | none => (insertFS fs p (Entry.file []), none)
      | some (Entry.file _) => (insertFS fs p (Entry.file []), none)
      | some _ => (fs, some IoError.ioErr)
    | _ => (fs, some IoError.ioErr)

/-- Model of `Write::write_all` on a freshly created file handle: replace the
content of the regular file at `p`. -/
def FS.writeAllAt (fs : FS) (p : FPath) (data : List Nat) : FS × Option IoError :=
  match fs.entryAt p with
  | some (Entry.file _) => (insertFS fs p (Entry.file data), none)
  | _ => (fs, some IoError.ioErr)

/-- Model of `std::fs::copy src dst`: read the full byte content of the regular file
at `src`, then create/truncate `dst` and write those bytes to it. -/
def FS.copyFile (fs : FS) (src dst : FPath) : FS × Option IoError :=
  match fs.entryAt src with
  | some (Entry.file c) =>
    match fs.fileCreate dst with
    | (fs1, none) => fs1.writeAllAt dst c
    | (fs1, some e) => (fs1, some e)
  | _ => (fs, some IoError.ioErr)

/-- Read the full byte content of the regular file at `p`. -/
def FS.readFile (fs : FS) (p : FPath) : Option (List Nat) :=
  match fs.entryAt p with
  | some (Entry.file c) => some c
  | _ => none

/-- Model of `Path::canonicalize` over the already-canonical paths of this model:
succeeds (returning the path unchanged) exactly when the path exists. -/
def FS.canonicalize (fs : FS) (p : FPath) : Option FPath :=
  if (fs.entryAt p).isSome then some p else none

/-- The kind of a fixture failure (`FixtureKind` in `src/fixture/errors.rs`,
as used by `src/fixture/tools.rs`). -/
inductive FixtureKind where
  | CreateDir
  | WriteFile
  | CopyFile
  | Walk
deriving DecidableEq, Repr

/-- A typed fixture error carrying the kind of the failing phase. -/
structure FixtureError where
  kind : FixtureKind
deriving DecidableEq, Repr

/-- Model of `.chain(FixtureError::new(kind))`: wrap a primitive I/O failure into a
typed fixture error of the given kind. -/
def chainKind (k : FixtureKind) : FS × Option IoError → FS × Option FixtureError
  | (fs, none) => (fs, none)
  | (fs, some _) => (fs, some ⟨k⟩)

/-- Source `ensure_parent_dir` (tools.rs): if the path has a parent, create the
parent directory chain, wrapping failures as `CreateDir`. -/
def ensure_parent_dir (fs : FS) (p : FPath) : FS × Option FixtureError :=
  if p = [] then (fs, none)
  else chainKind FixtureKind.CreateDir (fs.createDirAll p.dropLast)

/-- Source `create_dir_all` (tools.rs): create the directory chain for `p` itself,
wrapping failures as `CreateDir`. -/
def Fixture.create_dir_all (fs : FS) (p : FPath) : FS × Option FixtureError :=
  chainKind FixtureKind.CreateDir (fs.createDirAll p)

/-- Source `touch` (tools.rs): ensure the parent chain, then create an empty file
(truncating an existing one), wrapping creation failures as `WriteFile`. -/
def Fixture.touch (fs : FS) (p : FPath) : FS × Option FixtureError :=
  match ensure_parent_dir fs p with
  | (fs1, some e) => (fs1, some e)
  | (fs1, none) => chainKind FixtureKind.WriteFile (fs1.fileCreate p)

/-- Source `write_binary` (tools.rs): ensure the parent chain, create/truncate the
file, then write the full content; file failures are `WriteFile`. -/
def Fixture.write_binary (fs : FS) (p : FPath) (data : List Nat) :
    FS × Option FixtureError :=
  match ensure_parent_dir fs p with
  | (fs1, some e) => (fs1, some e)
  | (fs1, none) =>
    match chainKind FixtureKind.WriteFile (fs1.fileCreate p) with
    | (fs2, some e) => (fs2, some e)
    | (fs2, none) => chainKind FixtureKind.WriteFile (fs2.writeAllAt p data)

/-- Encode one unicode scalar value as UTF-8 bytes (`str::as_bytes`). -/
def utf8EncodeChar (c : Nat) : List Nat :=
  if c < 0x80 then [c]
  else if c < 0x800 then [0xC0 + c / 64, 0x80 + c % 64]
  else if c < 0x10000 then
    [0xE0 + c / 4096, 0x80 + (c / 64) % 64, 0x80 + c % 64]
  else
    [0xF0 + c / 262144, 0x80 + (c / 4096) % 64, 0x80 + (c / 64) % 64,
      0x80 + c % 64]

/-- Encode a text value as its UTF-8 bytes (`str::as_bytes`). -/
def utf8Encode (s : Str) : List Nat :=
  (s.map utf8EncodeChar).flatten

/-- Source `write_str` (tools.rs): ensure the parent chain, then delegate to
`write_binary` on the UTF-8 bytes, re-wrapping any failure of the
delegated call as `WriteFile`. -/
def Fixture.write_str (fs : FS) (p : FPath) (data : Str) :
    FS × Option FixtureError :=
  match ensure_parent_dir fs p with
  | (fs1, some e) => (fs1, some e)
  | (fs1, none) =>
    match Fixture.write_binary fs1 p (utf8Encode data) with
    | (fs2, some _) => (fs2, some ⟨FixtureKind.WriteFile⟩)
    | (fs2, none) => (fs2, none)

/-- Source `write_file` (tools.rs): ensure the parent chain, then copy the bytes of
the file `data` to `p`, wrapping copy failures as `CopyFile`. -/
def Fixture.write_file (fs : FS) (p : FPath) (data : FPath) :
    FS × Option FixtureError :=
  match ensure_parent_dir fs p with
  | (fs1, some e) => (fs1, some e)
  | (fs1, none) => chainKind FixtureKind.CopyFile (fs1.copyFile data p)

/-- A glob pattern, abstracted as a matcher on relative paths (the globwalk
collaborator is external to the repository; per the specification an entry
is selected when its relative path matches at least one pattern). -/
abbrev GlobPat := FPath → Bool

/-- Does the relative path match at least one of the patterns? -/
def matchesAny (patterns : List GlobPat) (rel : FPath) : Bool :=
  patterns.any (fun f => f rel)

/-- Model of `entry.path().strip_prefix(&source)`: the path of an enumerated entry
relative to the canonicalized source root. -/
def relOf (source p : FPath) : FPath :=
  p.drop source.length

/-- The glob walk: the entries of `fs` strictly below `source` whose
relative path matches at least one pattern, in enumeration order. -/
def walkEntries (fs : FS) (source : FPath) (patterns : List GlobPat) : FS :=
  fs.filter (fun pe =>
    source.isPrefixOf pe.1 && !(decide (pe.1 = source))
      && matchesAny patterns (relOf source pe.1))

/-- The body of the `copy_files` loop for one enumerated entry: a directory
is re-created with `create_dir_all` under the target; a regular file first
has its parent chain ensured under the target and is then byte-copied
(overwriting an existing target file); any other entry is skipped. -/
def copyStep (target source : FPath) (fs : FS) (p : FPath) (e : Entry) :
    FS × Option FixtureError :=
  let tgt := target ++ relOf source p
  match e with
  | Entry.dir => chainKind FixtureKind.CreateDir (fs.createDirAll tgt)
  | Entry.file _ =>
    match chainKind FixtureKind.CreateDir (fs.createDirAll tgt.dropLast) with
    | (fs1, some e) => (fs1, some e)
    | (fs1, none) => chainKind FixtureKind.CopyFile (fs1.copyFile p tgt)
  | Entry.other => (fs, none)

/-- The `copy_files` loop: process the enumerated entries in order,
aborting at the first failing step and keeping the state written so far. -/
def copyGo (target source : FPath) (fs : FS) : FS → FS × Option FixtureError
  | [] => (fs, none)
  | (p, e) :: rest =>
    match copyStep target source fs p e with
    | (fs1, some err) => (fs1, some err)
    | (fs1, none) => copyGo target source fs1 rest

/-- Source `copy_files` (tools.rs): canonicalize the source root (failure is a
`Walk` error), enumerate the matching entries, and run the copy loop. -/
def copyFiles (fs : FS) (target source : FPath) (patterns : List GlobPat) :
    FS × Option FixtureError :=
  match fs.canonicalize source with
  | none => (fs, some ⟨FixtureKind.Walk⟩)
  | some src => copyGo target src fs (walkEntries fs src patterns)

/-- Is `b` a UTF-8 continuation byte? -/
def isCont (b : Nat) : Bool :=
  0x80 ≤ b && b < 0xC0

/-- Step-bounded UTF-8 decoding helper: the fuel bounds the number of
decoded characters (each consumes at least one byte), which makes the
recursion structural; `utf8Decode` supplies the byte count as fuel. -/
def utf8DecodeAux : Nat → List Nat → Option Str
  | _, [] => some []
  | 0, _ :: _ => none
  | fuel + 1, b1 :: rest =>
    if b1 < 0x80 then (utf8DecodeAux fuel rest).map (fun s => b1 :: s)
    else if b1 < 0xC0 then none
    else if b1 < 0xE0 then
      match rest with
      | b2 :: rest2 =>
        if isCont b2 then
          let c := (b1 - 0xC0) * 64 + (b2 - 0x80)
          if 0x80 ≤ c then (utf8DecodeAux fuel rest2).map (fun s => c :: s)
          else none
        else none
      | [] => none
    else if b1 < 0xF0 then
      match rest with
      | b2 :: b3 :: rest3 =>
        if isCont b2 && isCont b3 then
          let c := (b1 - 0xE0) * 4096 + (b2 - 0x80) * 64 + (b3 - 0x80)
          if 0x800 ≤ c && !(0xD800 ≤ c && c < 0xE000) then
            (utf8DecodeAux fuel rest3).map (fun s => c :: s)
          else none
        else none
      | _ => none
    else if b1 < 0xF5 then
      match rest with
      | b2 :: b3 :: b4 :: rest4 =>
        if isCont b2 && isCont b3 && isCont b4 then
          let c := (b1 - 0xF0) * 262144 + (b2 - 0x80) * 4096
            + (b3 - 0x80) * 64 + (b4 - 0x80)
          if 0x10000 ≤ c && c < 0x110000 then
            (utf8DecodeAux fuel rest4).map (fun s => c :: s)
          else none
        else none
      | _ => none
    else none

/-- Strict UTF-8 decoding of a byte list into unicode scalar values
(`str::from_utf8`): rejects stray continuation bytes, truncated sequences,
overlong encodings, surrogates and out-of-range code points. -/
def utf8Decode (l : List Nat) : Option Str :=
  utf8DecodeAux l.length l

/-- The kind of a failure case produced by predicate evaluation. -/
inductive CaseKind where
  /-- Reading the file failed (`predicates::Error::Io`). -/
  | ioReadError
  /-- The file content is not valid UTF-8. -/
  | utf8Invalid
  /-- Byte-equality comparison case (expected vs. actual content). -/
  | bytesCmp (expected actual : List Nat)
  /-- Text-similarity comparison case (expected vs. actual text). -/
  | strDiff (expected actual : Str)
  /-- A case produced by an arbitrary injected predicate. -/
  | custom (tag : Nat)
deriving DecidableEq, Repr

/-- An evaluation-result case: its kind plus nested child cases, with
enough structure to render a human-readable explanation tree. -/
inductive Case where
  | mk (kind : CaseKind) (children : List Case)

/-- The kind of a case. -/
def Case.kind : Case → CaseKind
  | Case.mk k _ => k

/-- A predicate over decoded text (`predicates_core::Predicate<str>`):
`findCase expected v` returns an explanatory case exactly when evaluation
at `v` yields `expected`. -/
structure StrPred where
  eval : Str → Bool
  findCase : Bool → Str → Option Case

/-- A predicate over byte content. -/
structure BytesPred where
  eval : List Nat → Bool
  findCase : Bool → List Nat → Option Case

/-- A predicate over filesystem paths
(`predicates_core::Predicate<path::Path>`); evaluation reads the
filesystem, so the model passes it explicitly. -/
structure PathPred where
  eval : FS → FPath → Bool
  findCase : Bool → FS → FPath → Option Case

/-- Model of `predicates::ord::eq` on byte content. -/
def eqBytes (expected : List Nat) : BytesPred where
  eval := fun v => decide (v = expected)
  findCase := fun exp v =>
    if decide (v = expected) = exp then some (Case.mk (CaseKind.bytesCmp expected v) [])
    else none

/-- Model of `predicates::str::similar`: exact text equality with diff-style
reporting on mismatch. -/
def similar (expected : Str) : StrPred where
  eval := fun v => decide (v = expected)
  findCase := fun exp v =>
    if decide (v = expected) = exp then some (Case.mk (CaseKind.strDiff expected v) [])
    else none

/-- Model of `predicates::str::PredicateStrExt::from_utf8`
(`Utf8Predicate`): decode the bytes as UTF-8 and apply the inner text
predicate to the decoded value; a decode failure is itself a failed case,
distinct from a content mismatch. -/
def fromUtf8 (inner : StrPred) : BytesPred where
  eval := fun v =>
    match utf8Decode v with
    | some s => inner.eval s
    | none => false
  findCase := fun exp v =>
    match utf8Decode v with
    | some s => inner.findCase exp s
    | none => if exp then none else some (Case.mk CaseKind.utf8Invalid [])

/-- Model of `predicates::path::PredicateFileContentExt::from_file_path`
(`FileContentPredicate`): read the file's bytes and apply the inner byte
predicate; a read failure is a failed case of kind `ioReadError`. -/
def fromFilePath (inner : BytesPred) : PathPred where
  eval := fun fs p =>
    match fs.readFile p with
    | some c => inner.eval c
    | none => false
  findCase := fun exp fs p =>
    match fs.readFile p with
    | some c => inner.findCase exp c
    | none => if exp then none else some (Case.mk CaseKind.ioReadError [])

/-- Source `BytesContentPathPredicate::new` (assert.rs):
`predicates::ord::eq(value).from_file_path()`. -/
def BytesContentPathPredicate.new (value : List Nat) : PathPred :=
  fromFilePath (eqBytes value)

/-- Source `StrContentPathPredicate::new` (assert.rs):
`predicates::str::similar(value).from_utf8().from_file_path()`. -/
def StrContentPathPredicate.new (value : Str) : PathPred :=
  fromFilePath (fromUtf8 (similar value))

/-- Source `StrPathPredicate::new` (assert.rs):
`value.from_utf8().from_file_path()` for an injected text predicate. -/
def StrPathPredicate.new (value : StrPred) : PathPred :=
  fromFilePath (fromUtf8 value)

/-- The closed set of input shapes accepted by `IntoPathPredicate`
(assert.rs): a path predicate, literal bytes, a literal string, or an
injected predicate over text. -/
inductive PredInput where
  | direct (p : PathPred)
  | bytes (b : List Nat)
  | str (s : Str)
  | strPred (sp : StrPred)

/-- Source `IntoPathPredicate::into_path`: the conversion of each accepted input
shape into a path predicate, one adapter per shape. -/
def intoPath : PredInput → PathPred
  | PredInput.direct p => p
  | PredInput.bytes b => BytesContentPathPredicate.new b
  | PredInput.str s => StrContentPathPredicate.new s
  | PredInput.strPred sp => StrPathPredicate.new sp

/-- The observable outcome of a failed assertion: the panic message embeds
the rendered case tree together with the asserted path
(`panic with "Unexpected file, failed case.tree path"`). -/
structure AssertFailure where
  tree : Case
  path : FPath

/-- Source `assert` (assert.rs): evaluate the predicate against the path with a
failure explanation requested (`find_case(false, path)`); on a failing
case terminate with a message embedding the rendered tree and the path
(modelled as `some failure`), otherwise return with no observable effect
(`none`). -/
def assertRun (pred : PathPred) (fs : FS) (p : FPath) : Option AssertFailure :=
  match pred.findCase false fs p with
  | some c => some ⟨c, p⟩
  | none => none

/-- The full assertion entry point: convert the accepted input into a path
predicate, then evaluate it. -/
def assertInput (i : PredInput) (fs : FS) (p : FPath) : Option AssertFailure :=
  assertRun (intoPath i) fs p

theorem lookupFS_insertFS (fs : FS) (p : FPath) (e : Entry) (q : FPath) :
    lookupFS (insertFS fs p e) q = if p = q then some e else lookupFS fs q := by
  induction fs with
  | nil => by_cases hpq : p = q <;> simp [insertFS, lookupFS, hpq]
  | cons hd tl ih =>
    obtain ⟨r, d⟩ := hd
    by_cases hrp : r = p
    · subst hrp
      by_cases hpq : r = q <;> simp [insertFS, lookupFS, hpq]
    · by_cases hrq : r = q
      · subst hrq
        have hpq : p ≠ r := fun h => hrp h.symm
        simp [insertFS, lookupFS, hrp, hpq]
      · simp [insertFS, lookupFS, hrp, hrq, ih]

theorem entryAt_insertFS (fs : FS) (p : FPath) (e : Entry) (q : FPath)
    (hp : p ≠ []) :
    (insertFS fs p e).entryAt q = if p = q then some e else fs.entryAt q := by
  by_cases hq : q = []
  · subst hq
    have : p ≠ ([] : FPath) := hp
    simp [FS.entryAt, this]
  · simp [FS.entryAt, hq, lookupFS_insertFS]

theorem chainOf_mem_length {p : FPath} {q : FPath} (h : q ∈ chainOf p) :
    q ≠ [] ∧ q.length ≤ p.length := by
  simp only [chainOf, List.mem_map, List.mem_range] at h
  obtain ⟨i, hi, rfl⟩ := h
  constructor
  · have : (p.take (i + 1)).length = min (i + 1) p.length := List.length_take ..
    intro hnil
    rw [hnil] at this
    simp at this
    omega
  · have : (p.take (i + 1)).length = min (i + 1) p.length := List.length_take ..
    omega

theorem self_mem_chainOf {p : FPath} (hp : p ≠ []) : p ∈ chainOf p := by
  simp only [chainOf, List.mem_map, List.mem_range]
  refine ⟨p.length - 1, by
    cases p with
    | nil => exact absurd rfl hp
    | cons a l => simp, ?_⟩
  have hlen : 0 < p.length := List.length_pos.mpr hp
  have : p.length - 1 + 1 = p.length := by omega
  rw [this, List.take_length]

/-- Lemma: `mkDirs` never changes an entry that already exists. -/
theorem mkDirs_preserve_some {l : List FPath} {fs : FS} {q : FPath} {e : Entry}
    (h : fs.entryAt q = some e) :
    (mkDirs fs l).1.entryAt q = some e := by
  induction l generalizing fs with
  | nil => simpa [mkDirs] using h
  | cons r rest ih =>
    cases hr : fs.entryAt r with
    | none =>
      have hrq : r ≠ q := fun hrq => by rw [hrq, h] at hr; cases hr
      have hrnil : r ≠ [] := by
        intro hnil
        rw [hnil] at hr
        simp [FS.entryAt] at hr
      have : (insertFS fs r Entry.dir).entryAt q = some e := by
        rw [entryAt_insertFS _ _ _ _ hrnil]
        simp [hrq, h]
      simpa [mkDirs, hr] using ih this
    | some d =>
      cases d with
      | dir => simpa [mkDirs, hr] using ih h
      | file c => simpa [mkDirs, hr] using h
      | other => simpa [mkDirs, hr] using h

/-- Lemma: `mkDirs` changes entries only at the paths in its list. -/
theorem mkDirs_preserve_not_mem {l : List FPath} {fs : FS} {q : FPath}
    (h : q ∉ l) :
    (mkDirs fs l).1.entryAt q = fs.entryAt q := by
  induction l generalizing fs with
  | nil => simp [mkDirs]
  | cons r rest ih =>
    have hrq : r ≠ q := fun hrq => h (by rw [hrq]; exact List.mem_cons_self ..)
    have hrest : q ∉ rest := fun hm => h (List.mem_cons_of_mem _ hm)
    cases hr : fs.entryAt r with
    | none =>
      have hrnil : r ≠ [] := by
        intro hnil
        rw [hnil] at hr
        simp [FS.entryAt] at hr
      rw [mkDirs]
      simp only [hr]
      rw [ih hrest, entryAt_insertFS _ _ _ _ hrnil]
      simp [hrq]
    | some d =>
      cases d with
      | dir => rw [mkDirs]; simp only [hr]; exact ih hrest
      | file c => simp [mkDirs, hr]
      | other => simp [mkDirs, hr]

/-- Lemma: `mkDirs` succeeds when every listed path is absent or already a
directory. -/
theorem mkDirs_ok_of_free {l : List FPath} {fs : FS}
    (h : ∀ q ∈ l, fs.entryAt q = none ∨ fs.entryAt q = some Entry.dir) :
    (mkDirs fs l).2 = none := by
  induction l generalizing fs with
  | nil => simp [mkDirs]
  | cons r rest ih =>
    have hr := h r (List.mem_cons_self ..)
    cases hr with
    | inl hnone =>
      have hrnil : r ≠ [] := by
        intro hnil
        rw [hnil] at hnone
        simp [FS.entryAt] at hnone
      rw [mkDirs]
      simp only [hnone]
      apply ih
      intro q hq
      rw [entryAt_insertFS _ _ _ _ hrnil]
      by_cases hrq : r = q
      · simp [hrq]
      · simp only [hrq, if_neg hrq]
        exact h q (List.mem_cons_of_mem _ hq)
    | inr hdir =>
      rw [mkDirs]
      simp only [hdir]
      apply ih
      intro q hq
      exact h q (List.mem_cons_of_mem _ hq)

/-- After a successful `mkDirs`, every listed path is a directory. -/
theorem mkDirs_ok_sets {l : List FPath} {fs : FS}
    (h : (mkDirs fs l).2 = none) :
    ∀ q ∈ l, (mkDirs fs l).1.entryAt q = some Entry.dir := by
  induction l generalizing fs with
  | nil => simp
  | cons r rest ih =>
    intro q hq
    cases hr : fs.entryAt r with
    | none =>
      have hrnil : r ≠ [] := by
        intro hnil
        rw [hnil] at hr
        simp [FS.entryAt] at hr
      rw [mkDirs] at h ⊢
      simp only [hr] at h ⊢
      rcases List.mem_cons.mp hq with hq | hq
      · subst hq
        apply mkDirs_preserve_some
        rw [entryAt_insertFS _ _ _ _ hrnil]
        simp
      · exact ih h q hq
    | some d =>
      cases d with
      | dir =>
        rw [mkDirs] at h ⊢
        simp only [hr] at h ⊢
        rcases List.mem_cons.mp hq with hq | hq
        · subst hq
          exact mkDirs_preserve_some hr
        · exact ih h q hq
      | file c => rw [mkDirs] at h; simp [hr] at h
      | other => rw [mkDirs] at h; simp [hr] at h

/-- Lemma: `mkDirs` is the identity when every listed path is already a
directory. -/
theorem mkDirs_id_of_dirs {l : List FPath} {fs : FS}
    (h : ∀ q ∈ l, fs.entryAt q = some Entry.dir) :
    mkDirs fs l = (fs, none) := by
  induction l generalizing fs with
  | nil => simp [mkDirs]
  | cons r rest ih =>
    have hr := h r (List.mem_cons_self ..)
    rw [mkDirs]
    simp only [hr]
    exact ih (fun q hq => h q (List.mem_cons_of_mem _ hq))

/-- Every ancestor of `p` (nonempty proper prefix) is absent or already a
directory: the scenario in which a write is legal. -/
def DirsFree (fs : FS) (l : List FPath) : Prop :=
  ∀ q ∈ l, fs.entryAt q = none ∨ fs.entryAt q = some Entry.dir

/-- All listed paths are directories. -/
def DirsAll (fs : FS) (l : List FPath) : Prop :=
  ∀ q ∈ l, fs.entryAt q = some Entry.dir

theorem chainKind_none_inv {k : FixtureKind} {r : FS × Option IoError}
    {fs1 : FS} (h : chainKind k r = (fs1, none)) : r = (fs1, none) := by
  obtain ⟨fs', o⟩ := r
  cases o with
  | none => simpa [chainKind] using h
  | some e => simp [chainKind] at h

theorem chainKind_some_inv {k : FixtureKind} {fs' : FS} {o : Option IoError}
    {fs1 : FS} {err : FixtureError}
    (h : chainKind k (fs', o) = (fs1, some err)) :
    err = ⟨k⟩ ∧ fs' = fs1 ∧ o.isSome := by
  cases o with
  | none => simp [chainKind] at h
  | some e =>
    simp [chainKind] at h
    exact ⟨h.2.symm, h.1, rfl⟩

/-- A successful `ensure_parent_dir` makes every ancestor of `p` a
directory and preserves all existing entries. -/
theorem ensure_parent_ok {fs fs1 : FS} {p : FPath}
    (h : ensure_parent_dir fs p = (fs1, none)) :
    (∀ q ∈ chainOf p.dropLast, fs1.entryAt q = some Entry.dir)
      ∧ (∀ q e, fs.entryAt q = some e → fs1.entryAt q = some e) := by
  by_cases hp : p = []
  · subst hp
    simp [ensure_parent_dir] at h
    subst h
    constructor
    · intro q hq
      simp [chainOf] at hq
    · intro q e he
      exact he
  · rw [ensure_parent_dir, if_neg hp] at h
    have hinv := chainKind_none_inv h
    rw [FS.createDirAll] at hinv
    have hfs1 : (mkDirs fs (chainOf p.dropLast)).1 = fs1 := by
      rw [hinv]
    have hok : (mkDirs fs (chainOf p.dropLast)).2 = none := by
      rw [hinv]
    constructor
    · intro q hq
      rw [← hfs1]
      exact mkDirs_ok_sets hok q hq
    · intro q e he
      rw [← hfs1]
      exact mkDirs_preserve_some he

/-- Lemma: `ensure_parent_dir` succeeds when every ancestor is absent or already
a directory. -/
theorem ensure_parent_ok_of_free {fs : FS} {p : FPath}
    (h : DirsFree fs (chainOf p.dropLast)) :
    (ensure_parent_dir fs p).2 = none := by
  by_cases hp : p = []
  · subst hp
    simp [ensure_parent_dir]
  · rw [ensure_parent_dir, if_neg hp, FS.createDirAll]
    have := mkDirs_ok_of_free h
    rcases hres : mkDirs fs (chainOf p.dropLast) with ⟨fs', o⟩
    rw [hres] at this
    simp at this
    subst this
    simp [chainKind]

/-- A successful `File::create` leaves an empty regular file at `p` and
touches no other path. -/
theorem fileCreate_ok {fs fs1 : FS} {p : FPath}
    (h : fs.fileCreate p = (fs1, none)) :
    p ≠ [] ∧ fs1.entryAt p = some (Entry.file [])
      ∧ (∀ q, q ≠ p → fs1.entryAt q = fs.entryAt q) := by
  by_cases hp : p = []
  · rw [FS.fileCreate, if_pos hp] at h
    simp at h
  · rw [FS.fileCreate, if_neg hp] at h
    refine ⟨hp, ?_⟩
    cases hpar : fs.entryAt p.dropLast with
    | none => rw [hpar] at h; simp at h
    | some d =>
      cases d with
      | dir =>
        rw [hpar] at h
        cases hent : fs.entryAt p with
        | none =>
          rw [hent] at h
          simp at h
          rw [← h]
          constructor
          · rw [entryAt_insertFS _ _ _ _ hp]; simp
          · intro q hq
            rw [entryAt_insertFS _ _ _ _ hp,
              if_neg (fun hh => hq hh.symm)]
        | some d2 =>
          cases d2 with
          | file c =>
            rw [hent] at h
            simp at h
            rw [← h]
            constructor
            · rw [entryAt_insertFS _ _ _ _ hp]; simp
            · intro q hq
              rw [entryAt_insertFS _ _ _ _ hp,
                if_neg (fun hh => hq hh.symm)]
          | dir => rw [hent] at h; simp at h
          | other => rw [hent] at h; simp at h
      | file c => rw [hpar] at h; simp at h
      | other => rw [hpar] at h; simp at h

/-- Lemma: `File::create` succeeds when the parent is a directory and `p` is
absent or a regular file. -/
theorem fileCreate_ok_of {fs : FS} {p : FPath} (hp : p ≠ [])
    (hpar : fs.entryAt p.dropLast = some Entry.dir)
    (hleaf : fs.entryAt p = none ∨ ∃ c, fs.entryAt p = some (Entry.file c)) :
    (fs.fileCreate p).2 = none := by
  rw [FS.fileCreate, if_neg hp, hpar]
  rcases hleaf with hnone | ⟨c, hfile⟩
  · rw [hnone]
  · rw [hfile]

/-- A successful `write_all` sets the content at `p` and touches no other
path. -/
theorem writeAllAt_ok {fs fs1 : FS} {p : FPath} {data : List Nat}
    (h : fs.writeAllAt p data = (fs1, none)) :
    fs1.entryAt p = some (Entry.file data)
      ∧ (∀ q, q ≠ p → fs1.entryAt q = fs.entryAt q) := by
  rw [FS.writeAllAt] at h
  cases hent : fs.entryAt p with
  | none => rw [hent] at h; simp at h
  | some d =>
    cases d with
    | file c =>
      have hp : p ≠ [] := by
        intro hnil
        rw [hnil] at hent
        simp [FS.entryAt] at hent
      rw [hent] at h
      simp at h
      rw [← h]
      constructor
      · rw [entryAt_insertFS _ _ _ _ hp]; simp
      · intro q hq
        rw [entryAt_insertFS _ _ _ _ hp,
          if_neg (fun hh => hq hh.symm)]
    | dir => rw [hent] at h; simp at h
    | other => rw [hent] at h; simp at h

/-- A successful `write_binary` leaves exactly `data` at `p` and has made
every ancestor of `p` a directory. -/
theorem write_binary_spec {fs fs' : FS} {p : FPath} {data : List Nat}
    (h : Fixture.write_binary fs p data = (fs', none)) :
    fs'.entryAt p = some (Entry.file data)
      ∧ DirsAll fs' (chainOf p.dropLast) ∧ p ≠ [] := by
  rw [Fixture.write_binary] at h
  rcases hens : ensure_parent_dir fs p with ⟨fs1, o1⟩
  rw [hens] at h
  cases o1 with
  | some e => simp at h
  | none =>
    simp only at h
    rcases hcr : chainKind FixtureKind.WriteFile (fs1.fileCreate p) with ⟨fs2, o2⟩
    rw [hcr] at h
    cases o2 with
    | some e => simp at h
    | none =>
      simp only at h
      have hcr' := chainKind_none_inv hcr
      have hwr := chainKind_none_inv h
      obtain ⟨hpne, hfile2, hoth2⟩ := fileCreate_ok hcr'
      obtain ⟨hfile', hoth'⟩ := writeAllAt_ok hwr
      obtain ⟨hdirs1, _⟩ := ensure_parent_ok hens
      refine ⟨hfile', ?_, hpne⟩
      intro q hq
      have hqp : q ≠ p := by
        intro hqp
        have := chainOf_mem_length hq
        have hlt : p.dropLast.length < p.length := by
          rw [List.length_dropLast]
          have : 0 < p.length := List.length_pos.mpr hpne
          omega
        rw [hqp] at this
        omega
      rw [hoth' q hqp, hoth2 q hqp]
      exact hdirs1 q hq

/-- Lemma: `write_binary` succeeds whenever the ancestors of `p` are absent or
directories and `p` itself is absent or a regular file. -/
theorem write_binary_ok_of {fs : FS} {p : FPath} (data : List Nat)
    (hp : p ≠ []) (hfree : DirsFree fs (chainOf p.dropLast))
    (hleaf : fs.entryAt p = none ∨ ∃ c, fs.entryAt p = some (Entry.file c)) :
    ∃ fs', Fixture.write_binary fs p data = (fs', none) := by
  rcases hens : ensure_parent_dir fs p with ⟨fs1, o1⟩
  have ho1 : o1 = none := by
    have := ensure_parent_ok_of_free hfree
    rw [hens] at this
    exact this
  subst ho1
  obtain ⟨hdirs1, hpres1⟩ := ensure_parent_ok hens
  have hpar1 : fs1.entryAt p.dropLast = some Entry.dir := by
    by_cases hdl : p.dropLast = []
    · rw [hdl]
      simp [FS.entryAt]
    · exact hdirs1 _ (self_mem_chainOf hdl)
  have hleaf1 : fs1.entryAt p = none ∨ ∃ c, fs1.entryAt p = some (Entry.file c) := by
    rcases hleaf with hnone | ⟨c, hfile⟩
    · by_cases h1 : fs1.entryAt p = none
      · exact Or.inl h1
      · rcases hopt : fs1.entryAt p with _ | d
        · exact Or.inl rfl
        · -- p is not an ancestor of itself, so ensure_parent only could
          -- have created a directory at ancestors; but entry changes are
          -- confined to `chainOf p.dropLast`, which cannot contain `p`.
          exfalso
          by_cases hpe : p = []
          · exact hp hpe
          · have hnotmem : p ∉ chainOf p.dropLast := by
              intro hmem
              have := chainOf_mem_length hmem
              have hlt : p.dropLast.length < p.length := by
                rw [List.length_dropLast]
                have : 0 < p.length := List.length_pos.mpr hp
                omega
              omega
            have : fs1.entryAt p = fs.entryAt p := by
              rw [ensure_parent_dir, if_neg hp, FS.createDirAll] at hens
              have hinv := chainKind_none_inv hens
              have : (mkDirs fs (chainOf p.dropLast)).1 = fs1 := by rw [hinv]
              rw [← this]
              exact mkDirs_preserve_not_mem hnotmem
            rw [hnone] at this
            rw [hopt] at this
            cases this
    · exact Or.inr ⟨c, hpres1 p _ hfile⟩
  have hfc : (fs1.fileCreate p).2 = none := fileCreate_ok_of hp hpar1 hleaf1
  rcases hfcr : fs1.fileCreate p with ⟨fs2, o2⟩
  rw [hfcr] at hfc
  simp at hfc
  subst hfc
  obtain ⟨_, hfile2, _⟩ := fileCreate_ok hfcr
  have hwa : (fs2.writeAllAt p data).2 = none := by
    rw [FS.writeAllAt, hfile2]
  rcases hwar : fs2.writeAllAt p data with ⟨fs3, o3⟩
  rw [hwar] at hwa
  simp at hwa
  subst hwa
  refine ⟨fs3, ?_⟩
  rw [Fixture.write_binary, hens]
  simp only
  rw [hfcr]
  simp only [chainKind]
  rw [hwar]

/-- A failing copy step reports either the directory-creation phase or the
file-copy phase. -/
theorem copyStep_err_kind {t s : FPath} {fs fs1 : FS} {p : FPath} {e : Entry}
    {err : FixtureError} (h : copyStep t s fs p e = (fs1, some err)) :
    err.kind = FixtureKind.CreateDir ∨ err.kind = FixtureKind.CopyFile := by
  cases e with
  | dir =>
    simp only [copyStep] at h
    rcases hc : fs.createDirAll (t ++ relOf s p) with ⟨fs2, o2⟩
    rw [hc] at h
    have := chainKind_some_inv h
    rw [this.1]
    exact Or.inl rfl
  | file c =>
    simp only [copyStep] at h
    rcases hc : fs.createDirAll (t ++ relOf s p).dropLast with ⟨fs2, o2⟩
    rw [hc] at h
    cases o2 with
    | some e2 =>
      simp only [chainKind] at h
      simp at h
      rw [← h.2]
      exact Or.inl rfl
    | none =>
      simp only [chainKind] at h
      rcases hcp : fs2.copyFile p (t ++ relOf s p) with ⟨fs3, o3⟩
      rw [hcp] at h
      have := chainKind_some_inv h
      rw [this.1]
      exact Or.inr rfl
  | other =>
    simp [copyStep] at h

/-- A failing copy loop reports either directory creation or file copy. -/
theorem copyGo_err_kind {t s : FPath} {entries : FS} {fs fs1 : FS}
    {err : FixtureError} (h : copyGo t s fs entries = (fs1, some err)) :
    err.kind = FixtureKind.CreateDir ∨ err.kind = FixtureKind.CopyFile := by
  induction entries generalizing fs with
  | nil => simp [copyGo] at h
  | cons hd rest ih =>
    obtain ⟨p, e⟩ := hd
    rw [copyGo] at h
    rcases hstep : copyStep t s fs p e with ⟨fs2, o2⟩
    rw [hstep] at h
    cases o2 with
    | some e2 =>
      simp at h
      rw [← h.2]
      exact copyStep_err_kind hstep
    | none =>
      simp only at h
      exact ih h

/-- A path is never an ancestor of itself. -/
theorem not_mem_chain_dropLast {p : FPath} (hp : p ≠ []) :
    p ∉ chainOf p.dropLast := by
  intro hmem
  have hle := chainOf_mem_length hmem
  have hlt : p.dropLast.length < p.length := by
    rw [List.length_dropLast]
    have : 0 < p.length := List.length_pos.mpr hp
    omega
  omega

/-- A successful `ensure_parent_dir` does not change the entry at the
path itself. -/
theorem ensure_parent_preserve_self {fs fs1 : FS} {p : FPath} (hp : p ≠ [])
    (h : ensure_parent_dir fs p = (fs1, none)) :
    fs1.entryAt p = fs.entryAt p := by
  rw [ensure_parent_dir, if_neg hp, FS.createDirAll] at h
  have hinv := chainKind_none_inv h
  have h1 : (mkDirs fs (chainOf p.dropLast)).1 = fs1 := by rw [hinv]
  rw [← h1]
  exact mkDirs_preserve_not_mem (not_mem_chain_dropLast hp)

/-- Core of every "ensure parent then act" operation: under a writable
scenario, `ensure_parent_dir` succeeds, all ancestors become directories,
the immediate parent is a directory, the leaf keeps its shape and every
existing entry survives. -/
theorem setup_core {fs : FS} {p : FPath} (hp : p ≠ [])
    (hfree : DirsFree fs (chainOf p.dropLast))
    (hleaf : fs.entryAt p = none ∨ ∃ c, fs.entryAt p = some (Entry.file c)) :
    ∃ fs1, ensure_parent_dir fs p = (fs1, none)
      ∧ DirsAll fs1 (chainOf p.dropLast)
      ∧ fs1.entryAt p.dropLast = some Entry.dir
      ∧ (fs1.entryAt p = none ∨ ∃ c, fs1.entryAt p = some (Entry.file c))
      ∧ (∀ q e, fs.entryAt q = some e → fs1.entryAt q = some e) := by
  rcases hens : ensure_parent_dir fs p with ⟨fs1, o1⟩
  have ho1 : o1 = none := by
    have := ensure_parent_ok_of_free hfree
    rw [hens] at this
    exact this
  subst ho1
  obtain ⟨hdirs1, hpres1⟩ := ensure_parent_ok hens
  have hpar1 : fs1.entryAt p.dropLast = some Entry.dir := by
    by_cases hdl : p.dropLast = []
    · rw [hdl]; simp [FS.entryAt]
    · exact hdirs1 _ (self_mem_chainOf hdl)
  have hleaf1 : fs1.entryAt p = none ∨ ∃ c, fs1.entryAt p = some (Entry.file c) := by
    rw [ensure_parent_preserve_self hp hens]
    exact hleaf
  exact ⟨fs1, rfl, hdirs1, hpar1, hleaf1, hpres1⟩

/-- Lemma: `File::create` followed by `write_all`: succeeds in a writable
scenario, leaves exactly `data` at `p` and touches no other path. -/
theorem createWrite_ok {fs1 : FS} {p : FPath} (hp : p ≠ [])
    (hpar : fs1.entryAt p.dropLast = some Entry.dir)
    (hleaf : fs1.entryAt p = none ∨ ∃ c, fs1.entryAt p = some (Entry.file c))
    (data : List Nat) :
    ∃ fs2 fs3, fs1.fileCreate p = (fs2, none)
      ∧ fs2.writeAllAt p data = (fs3, none)
      ∧ fs3.entryAt p = some (Entry.file data)
      ∧ (∀ q, q ≠ p → fs3.entryAt q = fs1.entryAt q) := by
  have hfc : (fs1.fileCreate p).2 = none := fileCreate_ok_of hp hpar hleaf
  rcases hfcr : fs1.fileCreate p with ⟨fs2, o2⟩
  rw [hfcr] at hfc
  simp at hfc
  subst hfc
  obtain ⟨_, hfile2, hoth2⟩ := fileCreate_ok hfcr
  have hwa : (fs2.writeAllAt p data).2 = none := by
    rw [FS.writeAllAt, hfile2]
  rcases hwar : fs2.writeAllAt p data with ⟨fs3, o3⟩
  rw [hwar] at hwa
  simp at hwa
  subst hwa
  obtain ⟨hfile3, hoth3⟩ := writeAllAt_ok hwar
  refine ⟨fs2, fs3, rfl, hwar, hfile3, ?_⟩
  intro q hq
  rw [hoth3 q hq, hoth2 q hq]

/-- A failing `ensure_parent_dir` reports the `CreateDir` phase. -/
theorem ensure_parent_err_kind {fs fs1 : FS} {p : FPath} {e : FixtureError}
    (h : ensure_parent_dir fs p = (fs1, some e)) : e.kind = FixtureKind.CreateDir := by
  by_cases hp : p = []
  · subst hp; simp [ensure_parent_dir] at h
  · rw [ensure_parent_dir, if_neg hp] at h
    rcases hc : fs.createDirAll p.dropLast with ⟨fs2, o2⟩
    rw [hc] at h
    have := chainKind_some_inv h
    rw [this.1]

/-- A failing `copy_files` reports the phase that failed: walking,
directory creation, or file copying. -/
theorem copyFiles_err_kind {fs : FS} {t s : FPath} {patterns : List GlobPat}
    {fs' : FS} {err : FixtureError}
    (h : copyFiles fs t s patterns = (fs', some err)) :
    err.kind = FixtureKind.Walk ∨ err.kind = FixtureKind.CreateDir
      ∨ err.kind = FixtureKind.CopyFile := by
  rw [copyFiles] at h
  cases hcan : fs.canonicalize s with
  | none =>
    rw [hcan] at h
    simp at h
    rw [← h.2]
    exact Or.inl rfl
  | some src =>
    rw [hcan] at h
    simp only at h
    rcases copyGo_err_kind h with h1 | h1
    · exact Or.inr (Or.inl h1)
    · exact Or.inr (Or.inr h1)

/-- C1: for every path and every accepted predicate input, `assert`
converts the input to a path predicate and evaluates it with a failure
explanation requested (`find_case false`); when a failing case is found it
terminates with a message embedding both the rendered case tree and the
path, and when the evaluation succeeds it has no observable effect. -/
theorem c1_assert_contract (i : PredInput) (fs : FS) (p : FPath) :
    assertInput i fs p
        = ((intoPath i).findCase false fs p).map (fun c => ⟨c, p⟩)
      ∧ (∀ c, (intoPath i).findCase false fs p = some c →
          assertInput i fs p = some ⟨c, p⟩)
      ∧ ((intoPath i).findCase false fs p = none →
          assertInput i fs p = none) := by
  refine ⟨?_, ?_, ?_⟩
  · cases h : (intoPath i).findCase false fs p <;>
      simp [assertInput, assertRun, h]
  · intro c h
    simp [assertInput, assertRun, h]
  · intro h
    simp [assertInput, assertRun, h]

/-- Witness for C1 at concrete inputs: asserting literal bytes against a
missing file fails with the read-failure case embedded together with the
path, and a trivially satisfied direct predicate leaves no effect. -/
theorem c1_assert_contract_witness :
    assertInput (PredInput.bytes [104]) [] ["f"]
        = some ⟨Case.mk CaseKind.ioReadError [], ["f"]⟩
      ∧ assertInput
          (PredInput.direct ⟨fun _ _ => true, fun _ _ _ => none⟩) [] ["f"]
        = none := by
  constructor
  · exact (c1_assert_contract (PredInput.bytes [104]) [] ["f"]).2.1
      (Case.mk CaseKind.ioReadError []) rfl
  · exact (c1_assert_contract
      (PredInput.direct ⟨fun _ _ => true, fun _ _ _ => none⟩) [] ["f"]).2.2 rfl

/-- C4: `copy_files` canonicalizes the source root first and returns a
`Walk`-kind error when that fails (the path does not exist); a failing
step aborts the whole loop immediately, keeping the partially copied
state; a successful step continues from the updated state (no rollback);
and every error is typed with the phase that failed (`Walk`, `CreateDir`
or `CopyFile`). -/
theorem c4_failure_semantics :
    (∀ (fs : FS) (t s : FPath) (patterns : List GlobPat),
        fs.entryAt s = none →
        copyFiles fs t s patterns = (fs, some ⟨FixtureKind.Walk⟩))
    ∧ (∀ (t s : FPath) (fs : FS) (p : FPath) (e : Entry) (rest : FS)
        (fs1 : FS) (err : FixtureError),
        copyStep t s fs p e = (fs1, some err) →
        copyGo t s fs ((p, e) :: rest) = (fs1, some err))
    ∧ (∀ (t s : FPath) (fs : FS) (p : FPath) (e : Entry) (rest : FS)
        (fs1 : FS),
        copyStep t s fs p e = (fs1, none) →
        copyGo t s fs ((p, e) :: rest) = copyGo t s fs1 rest)
    ∧ (∀ (fs : FS) (t s : FPath) (patterns : List GlobPat) (fs' : FS)
        (err : FixtureError),
        copyFiles fs t s patterns = (fs', some err) →
        err.kind = FixtureKind.Walk ∨ err.kind = FixtureKind.CreateDir
          ∨ err.kind = FixtureKind.CopyFile) := by
  refine ⟨?_, ?_, ?_, ?_⟩
  · intro fs t s patterns h
    rw [copyFiles, FS.canonicalize, h]
    simp
  · intro t s fs p e rest fs1 err h
    rw [copyGo, h]
  · intro t s fs p e rest fs1 h
    rw [copyGo, h]
  · intro fs t s patterns fs' err h
    exact copyFiles_err_kind h

/-- Witness for C4 at concrete inputs: copying from a nonexistent source
root fails with a `Walk` error, a failing step aborts the loop, and a
successful step threads its updated state. -/
theorem c4_failure_semantics_witness :
    copyFiles [] ["t"] ["s"] [] = ([], some ⟨FixtureKind.Walk⟩)
      ∧ copyGo ["t"] ["s"] [(["t"], Entry.file [])]
          [(["s", "a"], Entry.dir)] = ([(["t"], Entry.file [])],
            some ⟨FixtureKind.CreateDir⟩)
      ∧ copyGo [] ["s"] [(["s", "d"], Entry.dir)]
          [(["s", "d"], Entry.other), (["s", "d"], Entry.other)]
        = copyGo [] ["s"] [(["s", "d"], Entry.dir)] [(["s", "d"], Entry.other)] := by
  refine ⟨?_, ?_, ?_⟩
  · exact c4_failure_semantics.1 [] ["t"] ["s"] [] rfl
  · exact c4_failure_semantics.2.1 ["t"] ["s"] [(["t"], Entry.file [])]
      ["s", "a"] Entry.dir [] [(["t"], Entry.file [])]
      ⟨FixtureKind.CreateDir⟩ (by decide)
  · exact c4_failure_semantics.2.2.1 [] ["s"] [(["s", "d"], Entry.dir)]
      ["s", "d"] Entry.other [(["s", "d"], Entry.other)]
      [(["s", "d"], Entry.dir)] rfl

/-- C5: for every existing source root, `copy_files` with an empty
pattern list matches nothing: it returns success and leaves the
filesystem unchanged. -/
theorem c5_empty_patterns (fs : FS) (t s : FPath)
    (h : (fs.entryAt s).isSome = true) :
    copyFiles fs t s [] = (fs, none) := by
  rw [copyFiles, FS.canonicalize, if_pos h]
  have hwalk : walkEntries fs s [] = [] := by
    simp [walkEntries, matchesAny]
  simp only
  rw [hwalk, copyGo]

/-- Witness for C5: copying from an existing directory with no patterns
is a no-op. -/
theorem c5_empty_patterns_witness :
    copyFiles [(["s"], Entry.dir)] ["t"] ["s"] []
      = ([(["s"], Entry.dir)], none) :=
  c5_empty_patterns [(["s"], Entry.dir)] ["t"] ["s"] (by decide)

/-- C10: an enumerated entry that is neither a regular file nor a
directory is silently skipped: the step changes nothing and reports no
error, and the copy loop continues with the remaining entries. -/
theorem c10_skip_special :
    (∀ (t s : FPath) (fs : FS) (p : FPath),
        copyStep t s fs p Entry.other = (fs, none))
    ∧ (∀ (t s : FPath) (fs : FS) (p : FPath) (rest : FS),
        copyGo t s fs ((p, Entry.other) :: rest) = copyGo t s fs rest) := by
  constructor
  · intro t s fs p
    rfl
  · intro t s fs p rest
    rw [copyGo]
    rfl

/-- C6: every fixture-setup operation returns a typed result whose kind
identifies the failing phase, and never escapes through any channel other
than that returned error value: `create_dir_all` errors are `CreateDir`;
`touch`, `write_binary`, `write_str` errors are `CreateDir` or
`WriteFile`; `write_file` errors are `CreateDir` or `CopyFile`; and
`copy_from` errors are `Walk`, `CreateDir` or `CopyFile`. -/
theorem c6_typed_results :
    (∀ (fs : FS) (p : FPath) (fs' : FS) (e : FixtureError),
        Fixture.create_dir_all fs p = (fs', some e) →
        e.kind = FixtureKind.CreateDir)
    ∧ (∀ (fs : FS) (p : FPath) (fs' : FS) (e : FixtureError),
        Fixture.touch fs p = (fs', some e) →
        e.kind = FixtureKind.CreateDir ∨ e.kind = FixtureKind.WriteFile)
    ∧ (∀ (fs : FS) (p : FPath) (data : List Nat) (fs' : FS) (e : FixtureError),
        Fixture.write_binary fs p data = (fs', some e) →
        e.kind = FixtureKind.CreateDir ∨ e.kind = FixtureKind.WriteFile)
    ∧ (∀ (fs : FS) (p : FPath) (data : Str) (fs' : FS) (e : FixtureError),
        Fixture.write_str fs p data = (fs', some e) →
        e.kind = FixtureKind.CreateDir ∨ e.kind = FixtureKind.WriteFile)
    ∧ (∀ (fs : FS) (p : FPath) (src : FPath) (fs' : FS) (e : FixtureError),
        Fixture.write_file fs p src = (fs', some e) →
        e.kind = FixtureKind.CreateDir ∨ e.kind = FixtureKind.CopyFile)
    ∧ (∀ (fs : FS) (t s : FPath) (patterns : List GlobPat) (fs' : FS)
        (e : FixtureError),
        copyFiles fs t s patterns = (fs', some e) →
        e.kind = FixtureKind.Walk ∨ e.kind = FixtureKind.CreateDir
          ∨ e.kind = FixtureKind.CopyFile) := by
  refine ⟨?_, ?_, ?_, ?_, ?_, ?_⟩
  · intro fs p fs' e h
    rw [Fixture.create_dir_all] at h
    rcases hc : fs.createDirAll p with ⟨fs2, o2⟩
    rw [hc] at h
    rw [(chainKind_some_inv h).1]
  · intro fs p fs' e h
    rw [Fixture.touch] at h
    rcases hens : ensure_parent_dir fs p with ⟨fs1, o1⟩
    rw [hens] at h
    cases o1 with
    | some e1 =>
      simp at h
      rw [← h.2]
      exact Or.inl (ensure_parent_err_kind hens)
    | none =>
      simp only at h
      rcases hf : fs1.fileCreate p with ⟨fs2, o2⟩
      rw [hf] at h
      rw [(chainKind_some_inv h).1]
      exact Or.inr rfl
  · intro fs p data fs' e h
    rw [Fixture.write_binary] at h
    rcases hens : ensure_parent_dir fs p with ⟨fs1, o1⟩
    rw [hens] at h
    cases o1 with
    | some e1 =>
      simp at h
      rw [← h.2]
      exact Or.inl (ensure_parent_err_kind hens)
    | none =>
      simp only at h
      rcases hf : fs1.fileCreate p with ⟨fs2, o2⟩
      rw [hf] at h
      cases o2 with
      | some e2 =>
        simp only [chainKind] at h
        simp at h
        rw [← h.2]
        exact Or.inr rfl
      | none =>
        simp only [chainKind] at h
        rcases hw : fs2.writeAllAt p data with ⟨fs3, o3⟩
        rw [hw] at h
        rw [(chainKind_some_inv h).1]
        exact Or.inr rfl
  · intro fs p data fs' e h
    rw [Fixture.write_str] at h
    rcases hens : ensure_parent_dir fs p with ⟨fs1, o1⟩
    rw [hens] at h
    cases o1 with
    | some e1 =>
      simp at h
      rw [← h.2]
      exact Or.inl (ensure_parent_err_kind hens)
    | none =>
      simp only at h
      rcases hw : Fixture.write_binary fs1 p (utf8Encode data) with ⟨fs2, o2⟩
      rw [hw] at h
      cases o2 with
      | some e2 =>
        simp at h
        rw [← h.2]
        exact Or.inr rfl
      | none => simp at h
  · intro fs p src fs' e h
    rw [Fixture.write_file] at h
    rcases hens : ensure_parent_dir fs p with ⟨fs1, o1⟩
    rw [hens] at h
    cases o1 with
    | some e1 =>
      simp at h
      rw [← h.2]
      exact Or.inl (ensure_parent_err_kind hens)
    | none =>
      simp only at h
      rcases hc : fs1.copyFile src p with ⟨fs2, o2⟩
      rw [hc] at h
      rw [(chainKind_some_inv h).1]
      exact Or.inr rfl
  · intro fs t s patterns fs' e h
    exact copyFiles_err_kind h

/-- Witness for C6 at concrete failing inputs: each operation, run where
its underlying filesystem action fails, returns its phase-typed error. -/
theorem c6_typed_results_witness :
    (⟨FixtureKind.CreateDir⟩ : FixtureError).kind = FixtureKind.CreateDir
      ∧ ((FixtureError.mk FixtureKind.WriteFile).kind = FixtureKind.CreateDir
          ∨ (FixtureError.mk FixtureKind.WriteFile).kind = FixtureKind.WriteFile) := by
  constructor
  · exact c6_typed_results.1 [(["a"], Entry.file [])] ["a"]
      [(["a"], Entry.file [])] ⟨FixtureKind.CreateDir⟩ (by decide)
  · exact c6_typed_results.2.1 [(["a"], Entry.dir)] ["a"]
      [(["a"], Entry.dir)] ⟨FixtureKind.WriteFile⟩ (by decide)

/-- C2: each of `touch`, `write_binary`, `write_str` and `write_file`
first ensures the target's ancestor directory chain exists before the
leaf action, so on a path whose ancestor directories do not yet exist the
operation succeeds and materializes every missing parent directory;
callers never pre-create directories. -/
theorem c2_ensure_parents (fs : FS) (p : FPath) (hp : p ≠ [])
    (hfree : DirsFree fs (chainOf p.dropLast))
    (hleaf : fs.entryAt p = none ∨ ∃ c, fs.entryAt p = some (Entry.file c)) :
    (∃ fs', Fixture.touch fs p = (fs', none)
        ∧ DirsAll fs' (chainOf p.dropLast))
    ∧ (∀ data : List Nat, ∃ fs',
        Fixture.write_binary fs p data = (fs', none)
          ∧ DirsAll fs' (chainOf p.dropLast)
          ∧ fs'.entryAt p = some (Entry.file data))
    ∧ (∀ data : Str, ∃ fs',
        Fixture.write_str fs p data = (fs', none)
          ∧ DirsAll fs' (chainOf p.dropLast))
    ∧ (∀ (src : FPath) (c : List Nat), fs.entryAt src = some (Entry.file c) →
        ∃ fs', Fixture.write_file fs p src = (fs', none)
          ∧ DirsAll fs' (chainOf p.dropLast)) := by
  obtain ⟨fs1, hens, hdirs1, hpar1, hleaf1, hpres1⟩ := setup_core hp hfree hleaf
  refine ⟨?_, ?_, ?_, ?_⟩
  · obtain ⟨fs2, _, hfcr, _, _, _⟩ := createWrite_ok hp hpar1 hleaf1 []
    obtain ⟨_, _, hoth2⟩ := fileCreate_ok hfcr
    refine ⟨fs2, ?_, ?_⟩
    · rw [Fixture.touch, hens]
      simp only
      rw [hfcr]
      rfl
    · intro q hq
      have hqp : q ≠ p := by
        intro hqp
        exact not_mem_chain_dropLast hp (hqp ▸ hq)
      rw [hoth2 q hqp]
      exact hdirs1 q hq
  · intro data
    obtain ⟨fs', hw⟩ := write_binary_ok_of data hp hfree hleaf
    obtain ⟨hcontent, hdirs', _⟩ := write_binary_spec hw
    exact ⟨fs', hw, hdirs', hcontent⟩
  · intro data
    have hfree1 : DirsFree fs1 (chainOf p.dropLast) :=
      fun q hq => Or.inr (hdirs1 q hq)
    obtain ⟨fs2, hw⟩ := write_binary_ok_of (utf8Encode data) hp hfree1 hleaf1
    obtain ⟨_, hdirs2, _⟩ := write_binary_spec hw
    refine ⟨fs2, ?_, hdirs2⟩
    rw [Fixture.write_str, hens]
    simp only
    rw [hw]
  · intro src c hsrc
    obtain ⟨fs2, fs3, hfcr, hwar, _, hoth3⟩ :=
      createWrite_ok hp hpar1 hleaf1 c
    have hsrc1 : fs1.entryAt src = some (Entry.file c) := hpres1 src _ hsrc
    refine ⟨fs3, ?_, ?_⟩
    · rw [Fixture.write_file, hens]
      simp only
      rw [FS.copyFile, hsrc1, hfcr]
      simp only
      rw [hwar]
      rfl
    · intro q hq
      have hqp : q ≠ p := by
        intro hqp
        exact not_mem_chain_dropLast hp (hqp ▸ hq)
      rw [hoth3 q hqp]
      exact hdirs1 q hq

/-- Witness for C2 at a deep fresh path: writing under `a/b/c` on an
empty filesystem succeeds and creates the directories `a` and `a/b`. -/
theorem c2_ensure_parents_witness :
    (∃ fs', Fixture.touch [] ["a", "b", "c"] = (fs', none)
        ∧ DirsAll fs' (chainOf (["a", "b", "c"] : FPath).dropLast))
      ∧ (∀ data : List Nat, ∃ fs',
          Fixture.write_binary [] ["a", "b", "c"] data = (fs', none)
            ∧ DirsAll fs' (chainOf (["a", "b", "c"] : FPath).dropLast)
            ∧ fs'.entryAt ["a", "b", "c"] = some (Entry.file data))
      ∧ (∀ data : Str, ∃ fs',
          Fixture.write_str [] ["a", "b", "c"] data = (fs', none)
            ∧ DirsAll fs' (chainOf (["a", "b", "c"] : FPath).dropLast))
      ∧ (∀ (src : FPath) (c : List Nat),
          FS.entryAt [] src = some (Entry.file c) →
          ∃ fs', Fixture.write_file [] ["a", "b", "c"] src = (fs', none)
            ∧ DirsAll fs' (chainOf (["a", "b", "c"] : FPath).dropLast)) :=
  c2_ensure_parents [] ["a", "b", "c"] (by decide)
    (fun q hq => Or.inl (by
      rw [FS.entryAt, if_neg (chainOf_mem_length hq).1]
      rfl))
    (Or.inl rfl)

/-- C7: `create_dir_all` is idempotent (a second call after a successful
one succeeds and changes nothing), and `write_binary` is a full
overwrite: after a successful write of `b1`, writing `b2` succeeds and
leaves exactly `b2` as the file's content. -/
theorem c7_idempotent_overwrite :
    (∀ (fs : FS) (p : FPath) (fs' : FS),
        Fixture.create_dir_all fs p = (fs', none) →
        Fixture.create_dir_all fs' p = (fs', none))
    ∧ (∀ (fs : FS) (p : FPath) (b1 b2 : List Nat) (fs1 : FS),
        Fixture.write_binary fs p b1 = (fs1, none) →
        ∃ fs2, Fixture.write_binary fs1 p b2 = (fs2, none)
          ∧ fs2.entryAt p = some (Entry.file b2)) := by
  constructor
  · intro fs p fs' h
    rw [Fixture.create_dir_all, FS.createDirAll] at h ⊢
    have hinv := chainKind_none_inv h
    have h1 : (mkDirs fs (chainOf p)).1 = fs' := by rw [hinv]
    have h2 : (mkDirs fs (chainOf p)).2 = none := by rw [hinv]
    have hdirs : ∀ q ∈ chainOf p, fs'.entryAt q = some Entry.dir := by
      intro q hq
      rw [← h1]
      exact mkDirs_ok_sets h2 q hq
    rw [mkDirs_id_of_dirs hdirs]
    rfl
  · intro fs p b1 b2 fs1 h
    obtain ⟨hcontent, hdirs, hp⟩ := write_binary_spec h
    have hfree1 : DirsFree fs1 (chainOf p.dropLast) :=
      fun q hq => Or.inr (hdirs q hq)
    obtain ⟨fs2, hw⟩ := write_binary_ok_of b2 hp hfree1 (Or.inr ⟨b1, hcontent⟩)
    exact ⟨fs2, hw, (write_binary_spec hw).1⟩

/-- Witness for C7: concrete double `create_dir_all` and a concrete
overwrite leaving only the second content. -/
theorem c7_idempotent_overwrite_witness :
    Fixture.create_dir_all [(["d"], Entry.dir)] ["d"]
        = ([(["d"], Entry.dir)], none)
      ∧ (∃ fs2, Fixture.write_binary [(["f"], Entry.file [1])] ["f"] [2]
          = (fs2, none) ∧ fs2.entryAt ["f"] = some (Entry.file [2])) := by
  constructor
  · exact c7_idempotent_overwrite.1 [] ["d"] [(["d"], Entry.dir)] (by decide)
  · exact c7_idempotent_overwrite.2 [] ["f"] [1] [2]
      [(["f"], Entry.file [1])] (by decide)

/-- C8: write/assert round-trip for literal bytes: after successfully
writing `b`, asserting literal byte-equality with `b` succeeds (no
failure), while asserting with any `b' ≠ b` fails. -/
theorem c8_bytes_roundtrip {fs fs' : FS} {p : FPath} {b b' : List Nat}
    (h : Fixture.write_binary fs p b = (fs', none)) (hne : b' ≠ b) :
    assertInput (PredInput.bytes b) fs' p = none
      ∧ (assertInput (PredInput.bytes b') fs' p).isSome = true := by
  have hcontent := (write_binary_spec h).1
  have hread : fs'.readFile p = some b := by
    rw [FS.readFile, hcontent]
  constructor
  · simp [assertInput, assertRun, intoPath, BytesContentPathPredicate.new,
      fromFilePath, eqBytes, hread]
  · have hne2 : b ≠ b' := fun hh => hne hh.symm
    simp [assertInput, assertRun, intoPath, BytesContentPathPredicate.new,
      fromFilePath, eqBytes, hread, hne2]

/-- Witness for C8: write `[104]` to a fresh path, assert `[104]`
(success) and `[105]` (failure). -/
theorem c8_bytes_roundtrip_witness :
    assertInput (PredInput.bytes [104]) [(["f"], Entry.file [104])] ["f"] = none
      ∧ (assertInput (PredInput.bytes [105])
          [(["f"], Entry.file [104])] ["f"]).isSome = true :=
  @c8_bytes_roundtrip [] [(["f"], Entry.file [104])] ["f"] [104] [105]
    (by decide) (by decide)

/-- C3: for every enumerated entry, a directory is re-created under the
target with `create_dir_all` on `target ++ rel`; a regular file first has
its parent chain ensured under the target and is then byte-copied from
source to target, overwriting an existing file at the target path. -/
theorem c3_per_entry_actions :
    (∀ (t s : FPath) (fs : FS) (p : FPath),
        copyStep t s fs p Entry.dir
          = chainKind FixtureKind.CreateDir (fs.createDirAll (t ++ relOf s p)))
    ∧ (∀ (t s : FPath) (fs : FS) (p : FPath) (c : List Nat),
        copyStep t s fs p (Entry.file c)
          = match chainKind FixtureKind.CreateDir
              (fs.createDirAll (t ++ relOf s p).dropLast) with
            | (fs1, some e) => (fs1, some e)
            | (fs1, none) =>
              chainKind FixtureKind.CopyFile (fs1.copyFile p (t ++ relOf s p)))
    ∧ (∀ (t s : FPath) (fs : FS) (p : FPath) (c old : List Nat),
        fs.entryAt p = some (Entry.file c) →
        DirsFree fs (chainOf (t ++ relOf s p).dropLast) →
        fs.entryAt (t ++ relOf s p) = some (Entry.file old) →
        ∃ fs1, copyStep t s fs p (Entry.file c) = (fs1, none)
          ∧ fs1.entryAt (t ++ relOf s p) = some (Entry.file c)) := by
  refine ⟨?_, ?_, ?_⟩
  · intro t s fs p
    rfl
  · intro t s fs p c
    rfl
  · intro t s fs p c old hsrc hdirs hold
    set tgt := t ++ relOf s p with htgt_def
    have htgt : tgt ≠ [] := by
      intro hnil
      rw [hnil] at hold
      simp [FS.entryAt] at hold
    rcases hmk : mkDirs fs (chainOf tgt.dropLast) with ⟨fsA, oA⟩
    have hoA : oA = none := by
      have := mkDirs_ok_of_free hdirs
      rw [hmk] at this
      exact this
    subst hoA
    have hfsA : (mkDirs fs (chainOf tgt.dropLast)).1 = fsA := by rw [hmk]
    have hsrcA : fsA.entryAt p = some (Entry.file c) := by
      rw [← hfsA]; exact mkDirs_preserve_some hsrc
    have holdA : fsA.entryAt tgt = some (Entry.file old) := by
      rw [← hfsA]; exact mkDirs_preserve_some hold
    have hdirsA : DirsAll fsA (chainOf tgt.dropLast) := by
      intro q hq
      rw [← hfsA]
      exact mkDirs_ok_sets (by rw [hmk]) q hq
    have hparA : fsA.entryAt tgt.dropLast = some Entry.dir := by
      by_cases hdl : tgt.dropLast = []
      · rw [hdl]; simp [FS.entryAt]
      · exact hdirsA _ (self_mem_chainOf hdl)
    obtain ⟨fs2, fs3, hfcr, hwar, hfile3, _⟩ :=
      createWrite_ok htgt hparA (Or.inr ⟨old, holdA⟩) c
    refine ⟨fs3, ?_, hfile3⟩
    simp only [copyStep, ← htgt_def]
    rw [FS.createDirAll, hmk]
    simp only [chainKind]
    rw [FS.copyFile, hsrcA, hfcr]
    simp only
    rw [hwar]

/-- Witness for C3: copying the file `s/f` (content `[9]`) over an
existing target file `t/f` (content `[0]`) succeeds and leaves the source
content at the target. -/
theorem c3_per_entry_actions_witness :
    ∃ fs1, copyStep ["t"] ["s"]
        [(["s"], Entry.dir), (["s", "f"], Entry.file [9]),
          (["t"], Entry.dir), (["t", "f"], Entry.file [0])]
        ["s", "f"] (Entry.file [9]) = (fs1, none)
      ∧ fs1.entryAt (["t"] ++ relOf ["s"] ["s", "f"])
          = some (Entry.file [9]) :=
  c3_per_entry_actions.2.2 ["t"] ["s"]
    [(["s"], Entry.dir), (["s", "f"], Entry.file [9]),
      (["t"], Entry.dir), (["t", "f"], Entry.file [0])]
    ["s", "f"] [9] [0] (by decide)
    (fun q hq => by
      have h1 : chainOf ((["t"] ++ relOf ["s"] ["s", "f"]).dropLast)
          = [["t"]] := by decide
      rw [h1] at hq
      have : q = ["t"] := by simpa using hq
      subst this
      exact Or.inr (by decide))
    (by decide)

/-- C9: asserting any text-based predicate (literal string or injected
predicate over `str`) against a file whose content is not valid UTF-8
fails with a case of the dedicated decode-failure kind (distinct from the
content-mismatch kind), and the inner text predicate is applied only to
successfully decoded content. -/
theorem c9_utf8_decode_failure {fs : FS} {p : FPath} {c : List Nat}
    (hread : fs.readFile p = some c) (hdec : utf8Decode c = none)
    (sp : StrPred) (s : Str) :
    ((StrPathPredicate.new sp).findCase false fs p
        = some (Case.mk CaseKind.utf8Invalid [])
      ∧ (StrPathPredicate.new sp).eval fs p = false)
    ∧ (StrContentPathPredicate.new s).findCase false fs p
        = some (Case.mk CaseKind.utf8Invalid [])
    ∧ (∀ expected actual : Str,
        (Case.mk CaseKind.utf8Invalid []).kind
          ≠ (Case.mk (CaseKind.strDiff expected actual) []).kind)
    ∧ (∀ (c2 : List Nat) (s2 : Str), utf8Decode c2 = some s2 →
        (fromUtf8 sp).findCase false c2 = sp.findCase false s2
          ∧ (fromUtf8 sp).eval c2 = sp.eval s2) := by
  refine ⟨⟨?_, ?_⟩, ?_, ?_, ?_⟩
  · simp [StrPathPredicate.new, fromFilePath, fromUtf8, hread, hdec]
  · simp [StrPathPredicate.new, fromFilePath, fromUtf8, hread, hdec]
  · simp [StrContentPathPredicate.new, fromFilePath, fromUtf8, hread, hdec]
  · intro expected actual
    simp [Case.kind]
  · intro c2 s2 h2
    constructor <;> simp [fromUtf8, h2]

/-- The single byte `0xFF` is not valid UTF-8. -/
theorem utf8Decode_ff : utf8Decode [255] = none := by decide

/-- Witness for C9 at the invalid byte `0xFF`: both the injected text
predicate and the literal string fail with the decode-failure case, and
on validly decoded content the inner predicate is consulted. -/
theorem c9_utf8_decode_failure_witness :
    ((StrPathPredicate.new (similar [])).findCase false
        [(["f"], Entry.file [255])] ["f"]
        = some (Case.mk CaseKind.utf8Invalid [])
      ∧ (StrPathPredicate.new (similar [])).eval
          [(["f"], Entry.file [255])] ["f"] = false)
    ∧ (StrContentPathPredicate.new []).findCase false
        [(["f"], Entry.file [255])] ["f"]
        = some (Case.mk CaseKind.utf8Invalid [])
    ∧ (∀ expected actual : Str,
        (Case.mk CaseKind.utf8Invalid []).kind
          ≠ (Case.mk (CaseKind.strDiff expected actual) []).kind)
    ∧ (∀ (c2 : List Nat) (s2 : Str), utf8Decode c2 = some s2 →
        (fromUtf8 (similar [])).findCase false c2
            = (similar []).findCase false s2
          ∧ (fromUtf8 (similar [])).eval c2 = (similar []).eval s2) :=
  @c9_utf8_decode_failure [(["f"], Entry.file [255])] ["f"] [255]
    rfl utf8Decode_ff (similar []) []
